import Mathlib

/-!
Verification development for `sortphotos.py` (repository
`vincentchevrier/sortphotos_vc`): a shallow embedding, in Lean 4, of the
date-resolution and collision-safe placement engine of the script, together
with theorems checking the natural-language specification against it.

Modelling conventions:
* Python strings are `String` (or `List Char` while parsing); Python 2 `str`
  comparison is byte-wise lexicographic comparison of the character codes.
* A Python `datetime` is a point on the time line, modelled as `Int` seconds
  counted from 0001-01-01 00:00:00 (proleptic Gregorian); `timedelta`
  arithmetic is plain integer arithmetic, and the broken-down calendar
  fields are recovered with the same cycle decomposition that CPython's
  `datetime` uses internally.
* The filesystem is a finite association list from path to file. Two
  models are used. The content-only model (`FS`) treats `filecmp.cmp` as
  content equality; it is sound for the claims that rely only on the
  direction true of the program — byte-identical files always compare
  equal under `filecmp.cmp`. The stat-aware model (`PyFile`, `FS2`)
  gives `filecmp.cmp` its real default `shallow=True` semantics: files
  whose stat signatures (size, mtime) match are reported equal without
  any byte comparison, so different-content files can be classified as
  duplicates.
* A Python exception that the script does not catch is modelled as `none` /
  an `Except.error` result.
-/

/-! ## Python string primitives -/

/-- The characters Python's `str.strip()` / `str.split()` treat as
whitespace. -/
def isPySpace (c : Char) : Bool :=
  c = ' ' || c = '\t' || c = '\n' || c = '\x0b' || c = '\x0c' || c = '\r'

/-- Python `str.strip()`: drop leading and trailing whitespace. -/
def pyStrip (l : List Char) : List Char :=
  ((l.dropWhile isPySpace).reverse.dropWhile isPySpace).reverse

/-- Helper for `pySplitWs`; `acc` holds the current word, reversed. -/
def pySplitWsAux : List Char → List Char → List (List Char)
  | [], acc => if acc.isEmpty then [] else [acc.reverse]
  | c :: rest, acc =>
    if isPySpace c then
      if acc.isEmpty then pySplitWsAux rest []
      else acc.reverse :: pySplitWsAux rest []
    else pySplitWsAux rest (c :: acc)

/-- Python `str.split()` with no argument: split on whitespace runs,
discarding empty pieces. -/
def pySplitWs (l : List Char) : List (List Char) := pySplitWsAux l []

/-- Helper for `pySplitOn`; `acc` holds the current piece, reversed. -/
def pySplitOnAux (sep : Char) : List Char → List Char → List (List Char)
  | [], acc => [acc.reverse]
  | c :: rest, acc =>
    if c = sep then acc.reverse :: pySplitOnAux sep rest []
    else pySplitOnAux sep rest (c :: acc)

/-- Python `str.split(sep)`: split on a separator, keeping empty pieces. -/
def pySplitOn (sep : Char) (l : List Char) : List (List Char) :=
  pySplitOnAux sep l []

/-- Byte-wise lexicographic `<` on Python 2 strings. -/
def listLt : List Char → List Char → Bool
  | _, [] => false
  | [], _ :: _ => true
  | a :: as, b :: bs =>
    if a.toNat < b.toNat then true
    else if b.toNat < a.toNat then false
    else listLt as bs

/-- Byte-wise lexicographic `>` on Python 2 strings. -/
def listGt (a b : List Char) : Bool := listLt b a

/-- Numeric value of a decimal digit character. -/
def digitVal (c : Char) : Nat := c.toNat - 48

/-- Value of a digit string, most significant digit first. -/
def fromDigits (l : List Char) : Nat :=
  l.foldl (fun a c => 10 * a + digitVal c) 0

/-- The decimal digit character for `n < 10`. -/
def toDigitChar (n : Nat) : Char := Char.ofNat (48 + n)

/-- Decimal digits of `n`, most significant first, prepended to `acc`;
`fuel` bounds the recursion (any `fuel ≥ n` computes all digits, and the
fallback is only reachable for `n < 10`, where it is already correct). -/
def natDigitsGo : Nat → Nat → List Char → List Char
  | 0, n, acc => toDigitChar n :: acc
  | fuel + 1, n, acc =>
    if n < 10 then toDigitChar n :: acc
    else natDigitsGo fuel (n / 10) (toDigitChar (n % 10) :: acc)

/-- Python `str(n)` for a natural number. -/
def pyStrNat (n : Nat) : String := ⟨natDigitsGo n n []⟩

/-- Python 2 `int(s)`: optional surrounding whitespace, optional sign, then a
nonempty run of decimal digits; anything else raises `ValueError`
(modelled as `none`). -/
def pyInt (l : List Char) : Option Int :=
  let t := pyStrip l
  let signRest : Int × List Char :=
    match t with
    | '-' :: r => (-1, r)
    | '+' :: r => (1, r)
    | r => (1, r)
  if signRest.2 ≠ [] ∧ signRest.2.all Char.isDigit then
    some (signRest.1 * (fromDigits signRest.2 : Int))
  else none

/-- Python `str.lower()` (ASCII). -/
def strLower (s : String) : String := ⟨s.data.map Char.toLower⟩

/-- Python `str.upper()` (ASCII). -/
def strUpper (s : String) : String := ⟨s.data.map Char.toUpper⟩

/-! ## Path manipulation (`posixpath`) -/

/-- `os.path.basename`: everything after the last slash. -/
def basename (p : String) : String :=
  ⟨(p.data.reverse.takeWhile (fun c => c ≠ '/')).reverse⟩

/-- `os.path.splitext(p)`: split off the extension at the last dot of the
last path component, provided that component has a character other than a
dot before that dot (so purely dotted names such as `.bashrc` are not
split). Returns `(root, ext)` with `root ++ ext = p`. -/
def splitext (p : String) : String × String :=
  let revBase := p.data.reverse.takeWhile (fun c => c ≠ '/')
  let revExt := revBase.takeWhile (fun c => c ≠ '.')
  match revBase.dropWhile (fun c => c ≠ '.') with
  | [] => (p, "")
  | _ :: revStem =>
    if revStem.any (fun c => c ≠ '.') then
      let extLen := revExt.length + 1
      (⟨p.data.take (p.data.length - extLen)⟩, ⟨p.data.drop (p.data.length - extLen)⟩)
    else (p, "")

/-- Python 2 `os.path.join(a, b)` on POSIX. -/
def pathJoin (a b : String) : String :=
  if (match b.data with | '/' :: _ => true | _ => false) then b
  else if a.data = [] then b
  else if a.data.getLast? = some '/' then a ++ b
  else a ++ "/" ++ b

/-! ## Calendar model (CPython `datetime` internals) -/

/-- Gregorian leap-year rule. -/
def isLeap (y : Nat) : Bool :=
  y % 4 = 0 && (!(y % 100 = 0) || y % 400 = 0)

/-- Days in month `m` of year `y` (months numbered 1..12). -/
def daysInMonth (y m : Nat) : Nat :=
  if m = 2 then (if isLeap y then 29 else 28)
  else if m = 4 ∨ m = 6 ∨ m = 9 ∨ m = 11 then 30
  else 31

/-- Days in year `y` before month `m` (months numbered 1..12). -/
def daysBeforeMonth (y : Nat) : Nat → Nat
  | 0 => 0
  | 1 => 0
  | m + 1 => daysBeforeMonth y m + daysInMonth y m

/-- CPython `date.toordinal()`: day number of `y-m-d`, with 0001-01-01 as
day 1. -/
def toOrdinal (y m d : Nat) : Nat :=
  365 * (y - 1) + (y - 1) / 4 - (y - 1) / 100 + (y - 1) / 400 +
    daysBeforeMonth y m + d

/-- A Python `datetime`, as seconds since 0001-01-01 00:00:00. -/
abbrev DT := Int

/-- Build the linear time point for the given calendar fields. -/
def toLinear (y m d h mi s : Nat) : DT :=
  (((toOrdinal y m d - 1) * 86400 + h * 3600 + mi * 60 + s : Nat) : Int)

/-- Month scan used by CPython `_ord2ymd`: walk months from `m`, consuming
`r` remaining days of the year (0-based); `fuel` bounds the walk. -/
def monthScan (y : Nat) : Nat → Nat → Nat → Nat × Nat
  | 0, m, r => (m, r + 1)
  | fuel + 1, m, r =>
    if r < daysInMonth y m then (m, r + 1)
    else monthScan y fuel (m + 1) (r - daysInMonth y m)

/-- CPython `date.fromordinal` cycle decomposition: calendar fields of day
number `n` counted from 0 at 0001-01-01. -/
def civilFromDays (n : Nat) : Nat × Nat × Nat :=
  let n400 := n / 146097
  let r1 := n % 146097
  let n100 := r1 / 36524
  let r2 := r1 % 36524
  let n4 := r2 / 1461
  let r3 := r2 % 1461
  let n1 := r3 / 365
  let r4 := r3 % 365
  let year := n400 * 400 + n100 * 100 + n4 * 4 + n1 + 1
  if n1 = 4 ∨ n100 = 4 then (year - 1, 12, 31)
  else
    let md := monthScan year 11 1 r4
    (year, md.1, md.2)

/-- `datetime.hour` of a linear time point. -/
def dtHour (t : DT) : Nat := (t % 86400).toNat / 3600

/-- `datetime.minute` of a linear time point. -/
def dtMinute (t : DT) : Nat := (t % 86400).toNat % 3600 / 60

/-- `datetime.second` of a linear time point. -/
def dtSecond (t : DT) : Nat := (t % 86400).toNat % 60

/-- The calendar-day index of a linear time point (its ordinal minus one). -/
def dayIndex (t : DT) : Int := t / 86400

/-- Calendar fields of a linear time point. -/
def dtYMD (t : DT) : Nat × Nat × Nat := civilFromDays (dayIndex t).toNat

/-- `datetime.year` of a linear time point. -/
def dtYear (t : DT) : Nat := (dtYMD t).1

/-- `datetime.month` of a linear time point. -/
def dtMonth (t : DT) : Nat := (dtYMD t).2.1

/-- `datetime.day` of a linear time point. -/
def dtDom (t : DT) : Nat := (dtYMD t).2.2

/-- The `datetime(...)` constructor: validates field ranges (as CPython
does, raising `ValueError` when out of range, modelled as `none`) and
produces the linear time point. -/
def mkDatetime (y m d h mi s : Int) : Option DT :=
  if 1 ≤ y ∧ y ≤ 9999 ∧ 1 ≤ m ∧ m ≤ 12 ∧ 1 ≤ d ∧
      d ≤ (daysInMonth y.toNat m.toNat : Int) ∧
      0 ≤ h ∧ h ≤ 23 ∧ 0 ≤ mi ∧ mi ≤ 59 ∧ 0 ≤ s ∧ s ≤ 59 then
    some (toLinear y.toNat m.toNat d.toNat h.toNat mi.toNat s.toNat)
  else none

/-! ## `sortphotos.py` convenience methods -/

/-- `parse_date_exif` (sortphotos.py lines 26-50): split the raw value on
whitespace, parse `YYYY:MM:DD` and, when present, `HH:MM:SS`; missing time
defaults to noon. `int()` failures, missing components and out-of-range
`datetime(...)` arguments raise (modelled as `none`). -/
def parse_date_exif (s : String) : Option DT :=
  let elements := pySplitWs (pyStrip s.data)
  match elements with
  | [] => none
  | e0 :: restEls =>
    let de := pySplitOn ':' e0
    do
      let y ← (de.get? 0).bind pyInt
      let mo ← (de.get? 1).bind pyInt
      let d ← (de.get? 2).bind pyInt
      let hms ← (match restEls with
        | [] => some ((12 : Int), (0 : Int), (0 : Int))
        | e1 :: _ =>
          let te := pySplitOn ':' e1
          do
            let h ← (te.get? 0).bind pyInt
            let mi ← (te.get? 1).bind pyInt
            let s2 ← (te.get? 2).bind pyInt
            pure (h, mi, s2))
      mkDatetime y mo d hms.1 hms.2.1 hms.2.2

/-- `check_for_early_morning_photos` (sortphotos.py lines 65-71): if the
hour is below `day_begins`, push the time back by `hour + 1` hours so the
photo classifies with the previous day. -/
def check_for_early_morning_photos (date : DT) (day_begins : Int) : DT :=
  if (dtHour date : Int) < day_begins then
    date - ((dtHour date : Int) + 1) * 3600
  else date

/-- `valid_date` (sortphotos.py lines 74-88): the date part must have
exactly three colon-separated components and the first must compare
(Python 2 string comparison, i.e. byte-wise lexicographic) greater than
`'0000'`; a time part, when present, must have exactly three
colon-separated components. -/
def valid_date (s : String) : Bool :=
  let elements := pySplitWs (pyStrip s.data)
  match elements with
  | [] => false
  | e0 :: rest =>
    let de := pySplitOn ':' e0
    let vd := de.length == 3 && listGt (de.headD []) "0000".data
    let vt := match rest with
      | [] => true
      | e1 :: _ => (pySplitOn ':' e1).length == 3
    vd && vt

/-- `purge_string` (sortphotos.py lines 111-113): keep only the characters
in the allowed set. -/
def purge_string (s : String) : String :=
  ⟨s.data.filter (fun x => ".0123456789-ABCDEFGHIJKLMNOPQRSTUVWXYZ_abcdefghijklmnopqrstuvwxyz".data.contains x)⟩

/-! ## Date selection from the EXIF tags (sortphotos.py lines 176-197) -/

/-- Dictionary lookup in the tag mapping produced by
`exifread.process_file`. -/
def lookupTag (tags : List (String × String)) (k : String) : Option String :=
  match tags.find? (fun kv => kv.1 == k) with
  | some kv => some kv.2
  | none => none

/-- One `elif 'K' in tags and valid_date(tags['K'])` step of the date
selection chain. -/
def tryTag (v : Option String) (next : Option DT) : Option DT :=
  match v with
  | some s => if valid_date s then parse_date_exif s else next
  | none => next

/-- The date selection of sortphotos.py lines 182-192: try
`EXIF DateTimeOriginal`, `EXIF DateTimeDigitized`, `Image DateTime` in
order (each only when present and passing `valid_date`), else fall back to
the file timestamp `fsd`. A `none` result is an uncaught exception raised
while parsing a value that passed `valid_date`. -/
def fileDate (tags : List (String × String)) (fsd : DT) : Option DT :=
  tryTag (lookupTag tags "EXIF DateTimeOriginal")
    (tryTag (lookupTag tags "EXIF DateTimeDigitized")
      (tryTag (lookupTag tags "Image DateTime") (some fsd)))

/-! ## Filename composition (sortphotos.py lines 212-221) -/

/-- Zero-pad a number to two digits (strftime `%m`, `%d`, `%H`, `%M`,
`%S`). -/
def pad2 (n : Nat) : String :=
  if n < 10 then "0" ++ pyStrNat n else pyStrNat n

/-- Zero-pad a number to four digits (strftime `%Y` for the years the
script accepts; Python 2 `strftime` requires year ≥ 1900). -/
def pad4 (n : Nat) : String :=
  if n < 10 then "000" ++ pyStrNat n
  else if n < 100 then "00" ++ pyStrNat n
  else if n < 1000 then "0" ++ pyStrNat n
  else pyStrNat n

/-- `date.strftime('%Y-%m-%d_%H%M%S')` (sortphotos.py line 218). -/
def strftimeRename (t : DT) : String :=
  pad4 (dtYear t) ++ "-" ++ pad2 (dtMonth t) ++ "-" ++ pad2 (dtDom t) ++
    "_" ++ pad2 (dtHour t) ++ pad2 (dtMinute t) ++ pad2 (dtSecond t)

/-- `date.strftime('%Y/%m')`: the default `sort_format` of the script. -/
def defaultSortFormat (t : DT) : String :=
  pad4 (dtYear t) ++ "/" ++ pad2 (dtMonth t)

/-- Destination filename selection, sortphotos.py lines 212-221: when
`rename` is set, the name is the formatted date, an underscore, the purged
tag (`Image Model` value if any, else the source basename without its
extension) and the original extension, otherwise the source basename is
kept verbatim. -/
def composeFilename (rename : Bool) (date : DT) (model : Option String)
    (srcBasename : String) : String :=
  if rename then
    let be := splitext srcBasename
    let tag := purge_string (model.getD be.1)
    strftimeRename date ++ "_" ++ tag ++ be.2
  else srcBasename

/-! ## Filesystem model and collision resolution -/

/-- The filesystem: an association list from path to file content; a path
holds at most one file (lookup takes the first binding). -/
abbrev FS := List (String × String)

/-- Is there a file at path `p`, and with which content
(`os.path.isfile` together with reading for `filecmp.cmp`)? -/
def fsLookup : FS → String → Option String
  | [], _ => none
  | kv :: rest, p => if kv.1 = p then some kv.2 else fsLookup rest p

/-- Remove any binding of path `p`. -/
def fsRemove : FS → String → FS
  | [], _ => []
  | kv :: rest, p => if kv.1 = p then fsRemove rest p else kv :: fsRemove rest p

/-- Write content `c` at path `p` (replacing any existing file). -/
def fsInsert (fs : FS) (p c : String) : FS := (p, c) :: fsRemove fs p

/-- The candidate destination names tried by the collision loop
(sortphotos.py lines 224-240): the original `root ++ ext`, then
`root_1`, `root_2`, ... with the suffix before the extension. -/
def candidateName (root ext : String) : Nat → String
  | 0 => root ++ ext
  | k + 1 => root ++ "_" ++ pyStrNat (k + 1) ++ ext

/-- The collision loop of sortphotos.py lines 224-240 over the
content-only filesystem, starting at candidate number `n` with `fuel`
iterations available: if no file exists at the candidate, use it
(`identical := false`); if one exists and `removeDuplicates` is set and
`filecmp.cmp` reports the files equal — modelled here as content
equality, the direction that is always true of byte-identical files;
`resolveLoop2` below carries the full shallow stat-signature semantics —
stop there with `identical := true`; otherwise move to the next suffixed
candidate. `none` means the fuel ran out (the caller supplies enough
fuel for the finite filesystem, so the real unbounded loop is
captured). -/
def resolveLoop (fs : FS) (removeDuplicates : Bool) (srcContent : String)
    (root ext : String) : Nat → Nat → Option (String × Bool)
  | 0, _ => none
  | fuel + 1, n =>
    let d := candidateName root ext n
    match fsLookup fs d with
    | none => some (d, false)
    | some dc =>
      if removeDuplicates && (dc == srcContent) then some (d, true)
      else resolveLoop fs removeDuplicates srcContent root ext fuel (n + 1)

/-- Result of placing one source file (sortphotos.py lines 222-250). -/
structure PlaceResult where
  /-- The filesystem after the placement. -/
  fs : FS
  /-- The path the collision loop settled on. -/
  finalDest : String
  /-- The `fileIsIdentical` flag of the script. -/
  identical : Bool
  /-- Whether `shutil.move` / `shutil.copy2` was executed. -/
  wrote : Bool
  deriving Repr, DecidableEq

/-- Lines 222-250 of sortphotos.py for one file: split the candidate
destination into root and extension, run the collision loop, then move or
copy. In move mode `shutil.move` always runs (even when
`fileIsIdentical`); in copy mode an identical duplicate is skipped
(`continue`), otherwise `shutil.copy2` writes the content. `none` models
a missing source file or exhausted loop fuel, neither of which occurs in
the runs the theorems consider. -/
def placeFile (fs : FS) (moveFiles removeDuplicates : Bool)
    (srcPath destFile : String) : Option PlaceResult :=
  match fsLookup fs srcPath with
  | none => none
  | some c =>
    let re := splitext destFile
    match resolveLoop fs removeDuplicates c re.1 re.2 (fs.length + 1) 0 with
    | none => none
    | some di =>
      if moveFiles then
        some ⟨fsInsert (fsRemove fs srcPath) di.1 c, di.1, di.2, true⟩
      else if di.2 then some ⟨fs, di.1, di.2, false⟩
      else some ⟨fsInsert fs di.1 c, di.1, di.2, true⟩

/-! ## Stat-aware filesystem model and the shallow `filecmp.cmp` -/

/-- A file as `filecmp.cmp` sees it: its byte content together with the
part of the stat signature that is not determined by the content — the
modification time. The size in the stat signature is the length of the
content. -/
structure PyFile where
  /-- The byte content. -/
  content : String
  /-- The modification time (`st_mtime`). -/
  mtime : Int
  deriving Repr, DecidableEq

/-- `filecmp.cmp(f1, f2)` with the default `shallow=True`, as the script
calls it on line 231. Both files are regular files, so: if the stat
signatures `(size, mtime)` coincide the files are reported equal
*without reading any bytes*; otherwise files of different size are
unequal; only for equal sizes with differing signatures are the contents
compared. Hence two files with different bytes but equal size and equal
mtime are reported equal. -/
def fileCmp (f1 f2 : PyFile) : Bool :=
  if f1.content.length = f2.content.length ∧ f1.mtime = f2.mtime then true
  else if f1.content.length ≠ f2.content.length then false
  else f1.content == f2.content

/-- The stat-aware filesystem: an association list from path to file. -/
abbrev FS2 := List (String × PyFile)

/-- Is there a file at path `p`, and which one? -/
def fsLookup2 : FS2 → String → Option PyFile
  | [], _ => none
  | kv :: rest, p => if kv.1 = p then some kv.2 else fsLookup2 rest p

/-- Remove any binding of path `p`. -/
def fsRemove2 : FS2 → String → FS2
  | [], _ => []
  | kv :: rest, p => if kv.1 = p then fsRemove2 rest p else kv :: fsRemove2 rest p

/-- Write file `f` at path `p` (replacing any existing file). -/
def fsInsert2 (fs : FS2) (p : String) (f : PyFile) : FS2 :=
  (p, f) :: fsRemove2 fs p

/-- The collision loop of sortphotos.py lines 224-240 over the
stat-aware filesystem, with `filecmp.cmp(src_file, dest_file)` given its
real shallow semantics (`fileCmp`). -/
def resolveLoop2 (fs : FS2) (removeDuplicates : Bool) (srcFile : PyFile)
    (root ext : String) : Nat → Nat → Option (String × Bool)
  | 0, _ => none
  | fuel + 1, n =>
    let d := candidateName root ext n
    match fsLookup2 fs d with
    | none => some (d, false)
    | some df =>
      if removeDuplicates && fileCmp srcFile df then some (d, true)
      else resolveLoop2 fs removeDuplicates srcFile root ext fuel (n + 1)

/-- Result of placing one source file over the stat-aware filesystem. -/
structure PlaceResult2 where
  /-- The filesystem after the placement. -/
  fs : FS2
  /-- The path the collision loop settled on. -/
  finalDest : String
  /-- The `fileIsIdentical` flag of the script. -/
  identical : Bool
  /-- Whether `shutil.move` / `shutil.copy2` was executed. -/
  wrote : Bool
  deriving Repr, DecidableEq

/-- Lines 222-250 of sortphotos.py for one file over the stat-aware
filesystem: `shutil.move` keeps the file (content and mtime), and
`shutil.copy2` copies the content *and preserves the modification time*;
in copy mode an identical duplicate is skipped (`continue`), in move
mode `shutil.move` always runs. -/
def placeFile2 (fs : FS2) (moveFiles removeDuplicates : Bool)
    (srcPath destFile : String) : Option PlaceResult2 :=
  match fsLookup2 fs srcPath with
  | none => none
  | some f =>
    let re := splitext destFile
    match resolveLoop2 fs removeDuplicates f re.1 re.2 (fs.length + 1) 0 with
    | none => none
    | some di =>
      if moveFiles then
        some ⟨fsInsert2 (fsRemove2 fs srcPath) di.1 f, di.1, di.2, true⟩
      else if di.2 then some ⟨fs, di.1, di.2, false⟩
      else some ⟨fsInsert2 fs di.1 f, di.1, di.2, true⟩

/-! ## The main driver `sortphotos` (sortphotos.py lines 122-253) -/

/-- The arguments of the `sortphotos` function. `sortFormat` is the
semantics of the user's strftime template (the script calls
`date.strftime(sort_format)`). -/
structure Config where
  /-- Source directory. -/
  srcDir : String
  /-- Destination directory. -/
  destDir : String
  /-- Extensions to match. -/
  extensions : List String
  /-- Semantics of the strftime directory template. -/
  sortFormat : DT → String
  /-- Move instead of copy. -/
  moveFiles : Bool
  /-- `removeDuplicates` (the negation of `--keep-duplicates`). -/
  removeDuplicates : Bool
  /-- `--ignore-exif`. -/
  ignoreExif : Bool
  /-- `--day-begins`. -/
  dayBegins : Int
  /-- Rename files (the negation of `--keep-filenames`). -/
  rename : Bool

/-- The observable machine state: the set of existing directories, the
files, and for each path the EXIF tags `exifread` would report and the
filesystem timestamp `parse_date_tstamp` would report. -/
structure World where
  /-- Existing directories (`os.path.exists` for directories). -/
  dirs : List String
  /-- Existing files. -/
  files : FS
  /-- EXIF tags per path. -/
  tags : String → List (String × String)
  /-- Filesystem timestamp date per path. -/
  fsDate : String → DT

/-- The file enumeration of sortphotos.py lines 133-154: files below the
source directory whose name matches `*.ext` for a configured extension, in
lower or (case-sensitive filesystem) upper case. -/
def matchedFiles (cfg : Config) (files : FS) : List String :=
  (files.map Prod.fst).filter fun p =>
    List.isPrefixOf (cfg.srcDir ++ "/").data p.data &&
    cfg.extensions.any fun e =>
      List.isSuffixOf ("." ++ strLower e).data p.data ||
      List.isSuffixOf ("." ++ strUpper e).data p.data

/-- The directory-creation walk of sortphotos.py lines 204-210: join each
component of the expanded template onto the destination directory,
creating every level that does not exist; returns the updated directory
set and the final directory path. -/
def makedirsWalk (dirs : List String) (destDir : String)
    (components : List String) : List String × String :=
  components.foldl
    (fun st comp =>
      let p := pathJoin st.2 comp
      (if st.1.contains p then st.1 else st.1 ++ [p], p))
    (dirs, destDir)

/-- Processing of a single matched file, sortphotos.py lines 162-250:
  resolve the date (file timestamp under `--ignore-exif`, else the EXIF
  chain `fileDate`), read the `Image Model` tag (its `try/except` means a
  failed read simply yields no tag), apply the early-morning rule, expand
  the template and create the directories, compose the filename, and place
  the file. `none` is an uncaught exception aborting the whole run. -/
def processFile (cfg : Config) (w : World) (srcFile : String) : Option World :=
  let dateModel : Option (DT × Option String) :=
    if cfg.ignoreExif then some (w.fsDate srcFile, none)
    else
      match fileDate (w.tags srcFile) (w.fsDate srcFile) with
      | none => none
      | some d => some (d, lookupTag (w.tags srcFile) "Image Model")
  match dateModel with
  | none => none
  | some dm =>
    let date := check_for_early_morning_photos dm.1 cfg.dayBegins
    let comps := (pySplitOn '/' (cfg.sortFormat date).data).map
      (fun l => (⟨l⟩ : String))
    let walk := makedirsWalk w.dirs cfg.destDir comps
    let fname := composeFilename cfg.rename date dm.2 (basename srcFile)
    let destFile := pathJoin walk.2 fname
    match placeFile w.files cfg.moveFiles cfg.removeDuplicates srcFile destFile with
    | none => none
    | some r => some { w with dirs := walk.1, files := r.fs }

/-- Sequential processing of the matched files (the `for src_file in
matched_files` loop); an uncaught exception stops the run, leaving the
state reached so far. -/
def processAll (cfg : Config) : List String → World → World × Except String Unit
  | [], w => (w, Except.ok ())
  | f :: rest, w =>
    match processFile cfg w f with
    | none => (w, Except.error "unhandled exception")
    | some w2 => processAll cfg rest w2

/-- The `sortphotos` driver, lines 122-253: the two pre-flight existence
checks run before anything else; only then are files enumerated and
processed. -/
def sortphotos (cfg : Config) (w : World) : World × Except String Unit :=
  if !(w.dirs.contains cfg.srcDir) then
    (w, Except.error "Source directory does not exist")
  else if !(w.dirs.contains cfg.destDir) then
    (w, Except.error "Destination directory does not exist")
  else processAll cfg (matchedFiles cfg w.files) w

/-! ## Filename pattern matching (spec §4.1(a)) -/

/-- Parse an exact count of decimal digits; returns the value and the rest. -/
def takeDigits : Nat → List Char → Option (Nat × List Char)
  | 0, l => some (0, l)
  | _ + 1, [] => none
  | k + 1, c :: rest =>
    if c.isDigit then
      (takeDigits k rest).map (fun vr => (digitVal c * 10 ^ k + vr.1, vr.2))
    else none

/-- Modelled from the spec: the repository's second script variant (not
under `src/`; `src/sortphotos.py` itself contains no filename pattern
matching) recognises device naming conventions such as
`PREFIX_YYYYMMDD_HHMMSS.ext`, each yielding a date and a fixed tag
string, as a pure string operation (spec §4.1(a)). This models the
`IMG_YYYYMMDD_HHMMSS` convention with fixed tag `img`, applied to the
basename without its extension. -/
def patternExtract (base : List Char) : Option (DT × String) :=
  match base with
  | 'I' :: 'M' :: 'G' :: '_' :: rest =>
    (do
      let ymd ← takeDigits 8 rest
      match ymd.2 with
      | '_' :: rest2 =>
        let hms ← takeDigits 6 rest2
        if hms.2 = [] then
          (mkDatetime (ymd.1 / 10000) (ymd.1 / 100 % 100) (ymd.1 % 100)
            (hms.1 / 10000) (hms.1 / 100 % 100) (hms.1 % 100)).map
            (fun d => (d, "img"))
        else none
      | _ => none)
  | _ => none

/-- Modelled from the spec: date extraction in the pattern-matching
variant tries the filename pattern first and only then the embedded
metadata chain, falling back to the filesystem timestamp (spec §4.1,
"Order of attempts, first success wins"). Returns the date and the
descriptive tag. -/
def specExtract (fname : String) (tags : List (String × String))
    (fsd : DT) : Option (DT × Option String) :=
  match patternExtract (splitext fname).1.data with
  | some dt => some (dt.1, some dt.2)
  | none =>
    (fileDate tags fsd).map (fun d => (d, lookupTag tags "Image Model"))

/-! ## Helper lemmas: the filesystem -/

theorem fsLookup_remove_self (fs : FS) (p : String) :
    fsLookup (fsRemove fs p) p = none := by
  induction fs with
  | nil => rfl
  | cons kv rest ih =>
    simp only [fsRemove]
    by_cases hk : kv.1 = p
    · rw [if_pos hk]; exact ih
    · rw [if_neg hk]; simp only [fsLookup]; rw [if_neg hk]; exact ih

theorem fsLookup_remove_ne (fs : FS) (p q : String) (h : q ≠ p) :
    fsLookup (fsRemove fs p) q = fsLookup fs q := by
  induction fs with
  | nil => rfl
  | cons kv rest ih =>
    simp only [fsRemove, fsLookup]
    by_cases hk : kv.1 = p
    · rw [if_pos hk, if_neg (fun hq => h (hq.symm.trans hk)), ih]
    · rw [if_neg hk]
      simp only [fsLookup]
      by_cases hq : kv.1 = q
      · rw [if_pos hq, if_pos hq]
      · rw [if_neg hq, if_neg hq, ih]

theorem fsLookup_insert_self (fs : FS) (p c : String) :
    fsLookup (fsInsert fs p c) p = some c := by
  simp [fsInsert, fsLookup]

theorem fsLookup_insert_ne (fs : FS) (p c q : String) (h : q ≠ p) :
    fsLookup (fsInsert fs p c) q = fsLookup fs q := by
  simp only [fsInsert, fsLookup]
  rw [if_neg (fun hq => h hq.symm)]
  exact fsLookup_remove_ne fs p q h

theorem fsRemove_of_lookup_none (fs : FS) (p : String)
    (h : fsLookup fs p = none) : fsRemove fs p = fs := by
  induction fs with
  | nil => rfl
  | cons kv rest ih =>
    simp only [fsLookup] at h
    by_cases hk : kv.1 = p
    · rw [if_pos hk] at h; exact absurd h (by simp)
    · rw [if_neg hk] at h
      simp only [fsRemove]
      rw [if_neg hk, ih h]

theorem fsInsert_length_of_lookup_none (fs : FS) (p c : String)
    (h : fsLookup fs p = none) :
    (fsInsert fs p c).length = fs.length + 1 := by
  simp [fsInsert, fsRemove_of_lookup_none fs p h]

/-! ## Helper lemmas: decimal strings and candidate names -/

theorem natDigitsGo_eq_append (fuel : Nat) :
    ∀ n acc, natDigitsGo fuel n acc = natDigitsGo fuel n [] ++ acc := by
  induction fuel with
  | zero => intro n acc; simp [natDigitsGo]
  | succ fuel ih =>
    intro n acc
    by_cases h : n < 10
    · simp [natDigitsGo, h]
    · simp only [natDigitsGo, h, if_false]
      rw [ih (n / 10) (toDigitChar (n % 10) :: acc), ih (n / 10) [toDigitChar (n % 10)]]
      simp

theorem natDigitsGo_ne_nil (fuel n : Nat) (acc : List Char) :
    natDigitsGo fuel n acc ≠ [] := by
  induction fuel generalizing n acc with
  | zero => simp [natDigitsGo]
  | succ fuel ih =>
    by_cases h : n < 10
    · simp [natDigitsGo, h]
    · simp only [natDigitsGo, h, if_false]
      exact ih _ _

theorem digitVal_toDigitChar (r : Nat) (h : r < 10) :
    digitVal (toDigitChar r) = r := by
  interval_cases r <;> rfl

theorem fromDigits_natDigitsGo (fuel : Nat) :
    ∀ n, n ≤ fuel → fromDigits (natDigitsGo fuel n []) = n := by
  induction fuel with
  | zero =>
    intro n hn
    interval_cases n
    rfl
  | succ fuel ih =>
    intro n hn
    by_cases h : n < 10
    · simp only [natDigitsGo, h, if_true]
      simp [fromDigits, digitVal_toDigitChar n h]
    · simp only [natDigitsGo, h, if_false]
      rw [natDigitsGo_eq_append]
      have hrec := ih (n / 10) (by omega)
      simp only [fromDigits] at hrec ⊢
      rw [List.foldl_append, hrec]
      simp only [List.foldl_cons, List.foldl_nil]
      rw [digitVal_toDigitChar (n % 10) (Nat.mod_lt n (by omega))]
      omega

theorem pyStrNat_inj (m n : Nat) (h : pyStrNat m = pyStrNat n) : m = n := by
  have hd : natDigitsGo m m [] = natDigitsGo n n [] := congrArg String.data h
  have := congrArg fromDigits hd
  rwa [fromDigits_natDigitsGo m m (Nat.le_refl m),
    fromDigits_natDigitsGo n n (Nat.le_refl n)] at this

theorem pyStrNat_data_ne_nil (n : Nat) : (pyStrNat n).data ≠ [] :=
  natDigitsGo_ne_nil n n []

theorem candidateName_inj (root ext : String) (m n : Nat)
    (h : candidateName root ext m = candidateName root ext n) : m = n := by
  have hdata := congrArg String.data h
  match m, n with
  | 0, 0 => rfl
  | 0, k + 1 =>
    exfalso
    simp only [candidateName, String.data_append] at hdata
    have hlen := congrArg List.length hdata
    simp only [List.length_append] at hlen
    have h1 : (pyStrNat (k + 1)).data.length ≠ 0 :=
      fun hc => pyStrNat_data_ne_nil (k + 1) (List.length_eq_zero.mp hc)
    have h2 : ("_" : String).data.length = 1 := rfl
    omega
  | k + 1, 0 =>
    exfalso
    simp only [candidateName, String.data_append] at hdata
    have hlen := congrArg List.length hdata
    simp only [List.length_append] at hlen
    have h1 : (pyStrNat (k + 1)).data.length ≠ 0 :=
      fun hc => pyStrNat_data_ne_nil (k + 1) (List.length_eq_zero.mp hc)
    have h2 : ("_" : String).data.length = 1 := rfl
    omega
  | j + 1, k + 1 =>
    simp only [candidateName, String.data_append, List.append_assoc] at hdata
    have h1 := List.append_cancel_left hdata
    have h2 := List.append_cancel_left h1
    have h3 := List.append_cancel_right h2
    have h4 : pyStrNat (j + 1) = pyStrNat (k + 1) := String.ext h3
    have := pyStrNat_inj _ _ h4
    omega

/-! ## Helper lemmas: the collision loop -/

theorem resolveLoop_step_free (fs : FS) (rd : Bool) (c root ext : String)
    (fuel n : Nat)
    (hl : fsLookup fs (candidateName root ext n) = none) :
    resolveLoop fs rd c root ext (fuel + 1) n =
      some (candidateName root ext n, false) := by
  simp only [resolveLoop, hl]

theorem resolveLoop_step_dup (fs : FS) (rd : Bool) (c root ext : String)
    (fuel n : Nat) (dc : String)
    (hl : fsLookup fs (candidateName root ext n) = some dc)
    (hb : (rd && (dc == c)) = true) :
    resolveLoop fs rd c root ext (fuel + 1) n =
      some (candidateName root ext n, true) := by
  simp only [resolveLoop, hl, hb]
  simp

theorem resolveLoop_step_occupied (fs : FS) (rd : Bool) (c root ext : String)
    (fuel n : Nat) (dc : String)
    (hl : fsLookup fs (candidateName root ext n) = some dc)
    (hb : (rd && (dc == c)) = false) :
    resolveLoop fs rd c root ext (fuel + 1) n =
      resolveLoop fs rd c root ext fuel (n + 1) := by
  simp only [resolveLoop, hl, hb]
  simp

/-- Anatomy of a successful collision-loop run starting at candidate `n`:
the result is candidate `n + k` for some `k` within the fuel; every
earlier candidate was occupied by a file that did not trigger the
duplicate stop; and the final candidate is unoccupied (`identical =
false`) or occupied by a duplicate with duplicate-removal on
(`identical = true`). -/
theorem resolveLoop_spec (fs : FS) (rd : Bool) (c root ext : String) :
    ∀ fuel n d ident,
      resolveLoop fs rd c root ext fuel n = some (d, ident) →
      ∃ k, k < fuel ∧ d = candidateName root ext (n + k) ∧
        (∀ m, m < k → ∃ cm,
          fsLookup fs (candidateName root ext (n + m)) = some cm ∧
          (rd && (cm == c)) = false) ∧
        ((ident = true ∧ ∃ cd, fsLookup fs d = some cd ∧
            (rd && (cd == c)) = true) ∨
          (ident = false ∧ fsLookup fs d = none)) := by
  intro fuel
  induction fuel with
  | zero => intro n d ident h; exact absurd h (by simp [resolveLoop])
  | succ fuel ih =>
    intro n d ident h
    simp only [resolveLoop] at h
    split at h
    next hl =>
      simp only [Option.some.injEq, Prod.mk.injEq] at h
      refine ⟨0, by omega, by rw [← h.1]; simp, by omega, ?_⟩
      right
      exact ⟨h.2.symm, by rw [← h.1]; exact hl⟩
    next dc hl =>
      split at h
      next hb =>
        simp only [Option.some.injEq, Prod.mk.injEq] at h
        refine ⟨0, by omega, by rw [← h.1]; simp, by omega, ?_⟩
        left
        exact ⟨h.2.symm, dc, by rw [← h.1]; exact hl, hb⟩
      next hb =>
        have hb2 : (rd && (dc == c)) = false := by simpa using hb
        obtain ⟨k, hk, hd, hprev, hfin⟩ := ih (n + 1) d ident h
        refine ⟨k + 1, by omega, by rw [hd]; congr 1; omega, ?_, hfin⟩
        intro m hm
        match m with
        | 0 => exact ⟨dc, by simpa using hl, hb2⟩
        | m + 1 =>
          obtain ⟨cm, hcm, hcb⟩ := hprev m (by omega)
          exact ⟨cm, by rw [show n + (m + 1) = n + 1 + m by omega]; exact hcm, hcb⟩

/-- Re-running the collision loop after writing the source content at the
path a first run settled on (with duplicate-removal on) finds that path
again and reports it as a duplicate. -/
theorem resolveLoop_insert (fs : FS) (c root ext : String) :
    ∀ fuel n d,
      resolveLoop fs true c root ext fuel n = some (d, false) →
      ∀ fuel2, fuel ≤ fuel2 →
        resolveLoop (fsInsert fs d c) true c root ext fuel2 n = some (d, true) := by
  intro fuel
  induction fuel with
  | zero => intro n d h; exact absurd h (by simp [resolveLoop])
  | succ fuel ih =>
    intro n d h fuel2 hf2
    match fuel2, hf2 with
    | f2 + 1, hf2 =>
      simp only [resolveLoop] at h
      split at h
      next hl =>
        simp only [Option.some.injEq, Prod.mk.injEq] at h
        rw [← h.1, resolveLoop_step_dup (fsInsert fs (candidateName root ext n) c)
          true c root ext f2 n c (fsLookup_insert_self _ _ _) (by simp)]
      next dc hl =>
        split at h
        next hb => simp at h
        next hb =>
          obtain ⟨k, _, hd, _, _⟩ :=
            resolveLoop_spec fs true c root ext fuel (n + 1) d false h
          have hne : candidateName root ext n ≠ d := by
            rw [hd]
            intro hc
            have := candidateName_inj root ext _ _ hc
            omega
          have hb2 : (true && (dc == c)) = false := by simpa using hb
          rw [resolveLoop_step_occupied (fsInsert fs d c) true c root ext f2 n dc
            (by rw [fsLookup_insert_ne fs d c _ hne]; exact hl) hb2]
          exact ih (n + 1) d h f2 (by omega)

/-! ## Helper lemmas: splitting and joining strings -/

theorem takeWhile_all_append (p : Char → Bool) (xs ys : List Char)
    (h : ∀ a ∈ xs, p a = true) :
    (xs ++ ys).takeWhile p = xs ++ ys.takeWhile p := by
  induction xs with
  | nil => rfl
  | cons x rest ih =>
    simp only [List.cons_append, List.takeWhile_cons, h x (by simp)]
    rw [ih (fun a ha => h a (by simp [ha]))]
    simp

theorem dropWhile_all_append (p : Char → Bool) (xs ys : List Char)
    (h : ∀ a ∈ xs, p a = true) :
    (xs ++ ys).dropWhile p = ys.dropWhile p := by
  induction xs with
  | nil => rfl
  | cons x rest ih =>
    simp only [List.cons_append, List.dropWhile_cons, h x (by simp)]
    simp only [if_true]
    exact ih (fun a ha => h a (by simp [ha]))

theorem dropWhile_none (p : Char → Bool) (l : List Char)
    (h : ∀ c ∈ l, p c = false) : l.dropWhile p = l := by
  induction l with
  | nil => rfl
  | cons x rest ih =>
    simp only [List.dropWhile_cons, h x (by simp)]
    simp only [Bool.false_eq_true, if_false]

theorem takeWhile_all (p : Char → Bool) (xs : List Char)
    (h : ∀ a ∈ xs, p a = true) : xs.takeWhile p = xs := by
  have := takeWhile_all_append p xs [] h
  simpa using this

/-- `strip` does nothing to a string with no whitespace at all. -/
theorem pyStrip_of_no_ws (l : List Char)
    (h : ∀ c ∈ l, isPySpace c = false) : pyStrip l = l := by
  unfold pyStrip
  rw [dropWhile_none _ l h,
    dropWhile_none _ l.reverse (fun c hc => h c (List.mem_reverse.mp hc))]
  simp

/-- Splitting on whitespace: a whitespace-free chunk accumulates. -/
theorem pySplitWsAux_chunk (l : List Char)
    (h : ∀ c ∈ l, isPySpace c = false) :
    ∀ acc rest, pySplitWsAux (l ++ rest) acc =
      pySplitWsAux rest (l.reverse ++ acc) := by
  induction l with
  | nil => intro acc rest; simp
  | cons x xs ih =>
    intro acc rest
    simp only [List.cons_append, pySplitWsAux, h x (by simp), List.append_eq]
    simp only [Bool.false_eq_true, if_false]
    rw [ih (fun c hc => h c (by simp [hc])) (x :: acc) rest]
    simp

/-- Splitting a single whitespace-free nonempty word. -/
theorem pySplitWs_single (l : List Char) (hne : l ≠ [])
    (h : ∀ c ∈ l, isPySpace c = false) : pySplitWs l = [l] := by
  unfold pySplitWs
  have hc := pySplitWsAux_chunk l h [] []
  simp only [List.append_nil] at hc
  rw [hc]
  simp only [pySplitWsAux]
  rw [if_neg (by simpa using hne)]
  simp

/-- Splitting two whitespace-free nonempty words around one space. -/
theorem pySplitWs_pair (l1 l2 : List Char) (h1ne : l1 ≠ []) (h2ne : l2 ≠ [])
    (h1 : ∀ c ∈ l1, isPySpace c = false)
    (h2 : ∀ c ∈ l2, isPySpace c = false) :
    pySplitWs (l1 ++ ' ' :: l2) = [l1, l2] := by
  unfold pySplitWs
  rw [pySplitWsAux_chunk l1 h1 [] (' ' :: l2)]
  simp only [List.append_nil, pySplitWsAux]
  rw [if_pos (by rfl), if_neg (by simpa using h1ne)]
  simp only [List.reverse_reverse]
  have hc := pySplitWsAux_chunk l2 h2 [] []
  simp only [List.append_nil] at hc
  rw [hc]
  simp only [pySplitWsAux]
  rw [if_neg (by simpa using h2ne)]
  simp

/-- Join a list of pieces with `:` between them. -/
def colonJoin : List (List Char) → List Char
  | [] => []
  | [x] => x
  | x :: xs => x ++ ':' :: colonJoin xs

theorem pySplitOnAux_chunk (sep : Char) (l : List Char)
    (h : ∀ c ∈ l, c ≠ sep) :
    ∀ acc rest, pySplitOnAux sep (l ++ rest) acc =
      pySplitOnAux sep rest (l.reverse ++ acc) := by
  induction l with
  | nil => intro acc rest; simp
  | cons x xs ih =>
    intro acc rest
    simp only [List.cons_append, pySplitOnAux, List.append_eq]
    rw [if_neg (h x (by simp))]
    rw [ih (fun c hc => h c (by simp [hc])) (x :: acc) rest]
    simp

/-- `str.split(':')` recovers the pieces of a colon join of colon-free
pieces. -/
theorem pySplitOn_colonJoin (parts : List (List Char)) (hne : parts ≠ [])
    (h : ∀ p ∈ parts, ∀ c ∈ p, c ≠ ':') :
    pySplitOn ':' (colonJoin parts) = parts := by
  induction parts with
  | nil => exact absurd rfl hne
  | cons x xs ih =>
    match xs with
    | [] =>
      unfold pySplitOn
      have hc := pySplitOnAux_chunk ':' x (h x (by simp)) [] []
      simp only [List.append_nil] at hc
      simp only [colonJoin]
      rw [hc]
      simp [pySplitOnAux]
    | y :: ys =>
      unfold pySplitOn
      simp only [colonJoin]
      rw [pySplitOnAux_chunk ':' x (h x (by simp)) [] (':' :: colonJoin (y :: ys))]
      simp only [List.append_nil, pySplitOnAux, if_pos]
      simp only [List.reverse_reverse]
      have ihy := ih (by simp) (fun p hp c hc => h p (by simp [hp]) c hc)
      unfold pySplitOn at ihy
      rw [ihy]

/-! ## Helper lemmas: `splitext` -/

/-- Root and extension rejoin to the original path. -/
theorem splitext_join (p : String) : (splitext p).1 ++ (splitext p).2 = p := by
  apply String.ext
  rw [String.data_append]
  unfold splitext
  dsimp only
  split
  · simp
  · split
    · dsimp only
      exact List.take_append_drop _ _
    · simp

/-- `splitext` on a simple `base.ext` name (base nonempty, no dots or
slashes anywhere): it cuts exactly at the dot. -/
theorem splitext_simple (base extC : List Char) (hbne : base ≠ [])
    (hbd : ∀ c ∈ base, c ≠ '.') (hbs : ∀ c ∈ base, c ≠ '/')
    (hed : ∀ c ∈ extC, c ≠ '.') (hes : ∀ c ∈ extC, c ≠ '/') :
    splitext ⟨base ++ '.' :: extC⟩ = (⟨base⟩, ⟨'.' :: extC⟩) := by
  have hdata : (⟨base ++ '.' :: extC⟩ : String).data = base ++ '.' :: extC := rfl
  have hrevBase : ((base ++ '.' :: extC).reverse).takeWhile (fun c => c ≠ '/') =
      extC.reverse ++ '.' :: base.reverse := by
    rw [show (base ++ '.' :: extC).reverse = extC.reverse ++ '.' :: base.reverse by simp]
    apply takeWhile_all
    intro a ha
    simp only [List.mem_append, List.mem_reverse, List.mem_cons] at ha
    rcases ha with ha | ha | ha
    · simpa using hes a ha
    · simp [ha]
    · simpa using hbs a ha
  have hdropExt : (extC.reverse ++ '.' :: base.reverse).dropWhile (fun c => c ≠ '.') =
      '.' :: base.reverse := by
    rw [dropWhile_all_append _ _ _ (fun a ha => by
      simpa using hed a (List.mem_reverse.mp ha))]
    simp [List.dropWhile_cons]
  have htakeExt : (extC.reverse ++ '.' :: base.reverse).takeWhile (fun c => c ≠ '.') =
      extC.reverse := by
    rw [takeWhile_all_append _ _ _ (fun a ha => by
      simpa using hed a (List.mem_reverse.mp ha))]
    simp [List.takeWhile_cons]
  have hany : (base.reverse).any (fun c => c ≠ '.') = true := by
    rw [List.any_eq_true]
    obtain ⟨c, hc⟩ := List.exists_mem_of_ne_nil base hbne
    exact ⟨c, List.mem_reverse.mpr hc, by simpa using hbd c hc⟩
  simp only [splitext, hdata, hrevBase, hdropExt, htakeExt, hany, if_true]
  have hlen : (base ++ '.' :: extC).length - (extC.reverse.length + 1) = base.length := by
    simp
  rw [hlen, List.take_left, List.drop_left]

/-- Every character that `purge_string` lets through is in the allowed
set. -/
theorem purge_string_allowed (s : String) :
    (purge_string s).data.all
      (fun c => ".0123456789-ABCDEFGHIJKLMNOPQRSTUVWXYZ_abcdefghijklmnopqrstuvwxyz".data.contains c) = true := by
  rw [List.all_eq_true]
  intro c hc
  exact (List.mem_filter.mp hc).2

/-! ## Claim theorems -/

/-- **C4**: for every resolved date and threshold `day_begins`, if the
date's hour is less than `day_begins` the date is shifted backward by
`hour + 1` hours, which lands on the previous calendar day at hour 23 with
minute and second unchanged; otherwise the date is returned unchanged. -/
theorem claim4_early_morning_rollback (t : DT) (day_begins : Int) :
    ((dtHour t : Int) < day_begins →
      dayIndex (check_for_early_morning_photos t day_begins) = dayIndex t - 1 ∧
      dtHour (check_for_early_morning_photos t day_begins) = 23 ∧
      dtMinute (check_for_early_morning_photos t day_begins) = dtMinute t ∧
      dtSecond (check_for_early_morning_photos t day_begins) = dtSecond t) ∧
    (¬ (dtHour t : Int) < day_begins →
      check_for_early_morning_photos t day_begins = t) := by
  constructor
  · intro h
    simp only [check_for_early_morning_photos, if_pos h]
    unfold dayIndex dtHour dtMinute dtSecond
    refine ⟨?_, ?_, ?_, ?_⟩ <;> omega
  · intro h
    simp only [check_for_early_morning_photos, if_neg h]

/-- **C4** witness: with `day_begins = 6`, a photo at 2023-01-10 02:15:00
is bucketed to the previous calendar day (at 23:15:00). -/
theorem claim4_early_morning_rollback_witness :
    (dtHour (toLinear 2023 1 10 2 15 0) : Int) < 6 ∧
    dayIndex (check_for_early_morning_photos (toLinear 2023 1 10 2 15 0) 6) =
      dayIndex (toLinear 2023 1 10 2 15 0) - 1 ∧
    dtHour (check_for_early_morning_photos (toLinear 2023 1 10 2 15 0) 6) = 23 ∧
    dtMinute (check_for_early_morning_photos (toLinear 2023 1 10 2 15 0) 6) = 15 := by
  have h := (claim4_early_morning_rollback (toLinear 2023 1 10 2 15 0) 6).1 (by decide)
  exact ⟨by decide, h.1, h.2.1, by rw [h.2.2.1]; decide⟩

/-- Characters appearing in a colon join all come from a piece or are the
colon itself. -/
theorem colonJoin_mem (parts : List (List Char)) (c : Char)
    (hc : c ∈ colonJoin parts) : c = ':' ∨ ∃ p ∈ parts, c ∈ p := by
  induction parts with
  | nil => exact absurd hc (by simp [colonJoin])
  | cons x xs ih =>
    match xs with
    | [] =>
      right
      exact ⟨x, by simp, by simpa [colonJoin] using hc⟩
    | y :: ys =>
      simp only [colonJoin, List.mem_append, List.mem_cons] at hc
      rcases hc with hc | hc | hc
      · right; exact ⟨x, by simp, hc⟩
      · left; exact hc
      · rcases ih hc with h1 | ⟨p, hp, hcp⟩
        · left; exact h1
        · right; exact ⟨p, by simp [hp], hcp⟩

/-- `strip` keeps a string headed and ended by non-whitespace. -/
theorem pyStrip_pair (l1 l2 : List Char) (h1ne : l1 ≠ []) (h2ne : l2 ≠ [])
    (h1 : ∀ c ∈ l1, isPySpace c = false)
    (h2 : ∀ c ∈ l2, isPySpace c = false) :
    pyStrip (l1 ++ ' ' :: l2) = l1 ++ ' ' :: l2 := by
  unfold pyStrip
  have hd1 : (l1 ++ ' ' :: l2).dropWhile isPySpace = l1 ++ ' ' :: l2 := by
    cases l1 with
    | nil => exact absurd rfl h1ne
    | cons x xs =>
      simp only [List.cons_append, List.dropWhile_cons, h1 x (by simp)]
      simp
  rw [hd1]
  have hrev : (l1 ++ ' ' :: l2).reverse = l2.reverse ++ ' ' :: l1.reverse := by
    simp
  rw [hrev]
  have hd2 : (l2.reverse ++ ' ' :: l1.reverse).dropWhile isPySpace =
      l2.reverse ++ ' ' :: l1.reverse := by
    cases hr : l2.reverse with
    | nil => exact absurd (by simpa using hr) h2ne
    | cons y ys =>
      have hy : isPySpace y = false :=
        h2 y (List.mem_reverse.mp (by rw [hr]; simp))
      simp only [List.cons_append, List.dropWhile_cons, hy]
      simp
  rw [hd2, ← hrev]
  simp

/-- **C5** (amended): `valid_date` accepts a raw date iff the date part
splits into exactly three colon-separated components whose first compares
lexicographically greater than the string `0000` (the components need not
be numeric), and a whitespace-separated time part, when present, splits
into exactly three colon-separated components. Stated over inputs built by
joining arbitrary colon-free, whitespace-free components. -/
theorem claim5_valid_date_characterization (dps tps : List (List Char))
    (hd : ∀ p ∈ dps, ∀ c ∈ p, c ≠ ':' ∧ isPySpace c = false)
    (ht : ∀ p ∈ tps, ∀ c ∈ p, c ≠ ':' ∧ isPySpace c = false)
    (hdne : colonJoin dps ≠ []) (htne : colonJoin tps ≠ []) :
    valid_date ⟨colonJoin dps⟩ =
      (dps.length == 3 && listGt (dps.headD []) "0000".data) ∧
    valid_date ⟨colonJoin dps ++ ' ' :: colonJoin tps⟩ =
      (dps.length == 3 && listGt (dps.headD []) "0000".data &&
        (tps.length == 3)) := by
  have hdpsne : dps ≠ [] := by
    intro hc; rw [hc] at hdne; exact hdne rfl
  have htpsne : tps ≠ [] := by
    intro hc; rw [hc] at htne; exact htne rfl
  have hdws : ∀ c ∈ colonJoin dps, isPySpace c = false := by
    intro c hc
    rcases colonJoin_mem dps c hc with h1 | ⟨p, hp, hcp⟩
    · rw [h1]; rfl
    · exact (hd p hp c hcp).2
  have htws : ∀ c ∈ colonJoin tps, isPySpace c = false := by
    intro c hc
    rcases colonJoin_mem tps c hc with h1 | ⟨p, hp, hcp⟩
    · rw [h1]; rfl
    · exact (ht p hp c hcp).2
  have hsplitd := pySplitOn_colonJoin dps hdpsne (fun p hp c hc => (hd p hp c hc).1)
  have hsplitt := pySplitOn_colonJoin tps htpsne (fun p hp c hc => (ht p hp c hc).1)
  constructor
  · unfold valid_date
    rw [show (⟨colonJoin dps⟩ : String).data = colonJoin dps from rfl]
    rw [pyStrip_of_no_ws _ hdws, pySplitWs_single _ hdne hdws]
    dsimp only
    rw [hsplitd]
    simp
  · unfold valid_date
    rw [show (⟨colonJoin dps ++ ' ' :: colonJoin tps⟩ : String).data =
      colonJoin dps ++ ' ' :: colonJoin tps from rfl]
    rw [pyStrip_pair _ _ hdne htne hdws htws,
      pySplitWs_pair _ _ hdne htne hdws htws]
    dsimp only
    rw [hsplitd, hsplitt]

/-- **C5** witness: a well-formed numeric date-time is classified exactly
as the characterization says, in both the date-only and the date-time
form. -/
theorem claim5_valid_date_characterization_witness :
    valid_date ⟨colonJoin ["2023".data, "06".data, "15".data]⟩ = true ∧
    valid_date ⟨colonJoin ["2023".data, "06".data, "15".data] ++
      ' ' :: colonJoin ["14".data, "15".data, "00".data]⟩ = true := by
  have h := claim5_valid_date_characterization
    ["2023".data, "06".data, "15".data] ["14".data, "15".data, "00".data]
    (by decide) (by decide) (by decide) (by decide)
  exact ⟨by rw [h.1]; decide, by rw [h.2]; decide⟩

/-- **C5** counterexample: the claim says only raw dates with three
*numeric* components are accepted, but `valid_date` accepts `A:B:C`,
whose year component `A` is not numeric (the check is a lexicographic
string comparison against `'0000'`, not a numeric one). -/
theorem claim5_counterexample :
    valid_date "A:B:C" = true ∧
    ((pySplitOn ':' (pyStrip "A:B:C".data)).headD []).all Char.isDigit = false := by
  constructor <;> decide

/-- **C9**: if the source directory or the destination directory does not
exist, `sortphotos` raises before any file is enumerated or touched: the
returned world (directories and files) is exactly the input world and the
run ends in a fatal error. -/
theorem claim9_preflight_missing_dir (cfg : Config) (w : World)
    (h : w.dirs.contains cfg.srcDir = false ∨
      w.dirs.contains cfg.destDir = false) :
    (sortphotos cfg w).1 = w ∧
    ∃ msg, (sortphotos cfg w).2 = Except.error msg := by
  rcases h with h | h
  · have h2 : cfg.srcDir ∉ w.dirs := by simpa using h
    refine ⟨by simp [sortphotos, h2], "Source directory does not exist",
      by simp [sortphotos, h2]⟩
  · have h2 : cfg.destDir ∉ w.dirs := by simpa using h
    cases hs : w.dirs.contains cfg.srcDir with
    | false =>
      have hs2 : cfg.srcDir ∉ w.dirs := by simpa using hs
      refine ⟨by simp [sortphotos, hs2], "Source directory does not exist",
        by simp [sortphotos, hs2]⟩
    | true =>
      have hs2 : cfg.srcDir ∈ w.dirs := by simpa using hs
      refine ⟨by simp [sortphotos, hs2, h2], "Destination directory does not exist",
        by simp [sortphotos, hs2, h2]⟩

/-- **C9** witness: with an existing destination but no source directory,
nothing changes and the run fails fatally. -/
theorem claim9_preflight_missing_dir_witness :
    (sortphotos ⟨"src", "dest", ["jpg"], defaultSortFormat, false, true, false, 0, true⟩
      ⟨["dest"], [("x.jpg", "X")], fun _ => [], fun _ => 0⟩).1.files =
      [("x.jpg", "X")] ∧
    ∃ msg, (sortphotos ⟨"src", "dest", ["jpg"], defaultSortFormat, false, true, false, 0, true⟩
      ⟨["dest"], [("x.jpg", "X")], fun _ => [], fun _ => 0⟩).2 = Except.error msg := by
  have h := claim9_preflight_missing_dir
    ⟨"src", "dest", ["jpg"], defaultSortFormat, false, true, false, 0, true⟩
    ⟨["dest"], [("x.jpg", "X")], fun _ => [], fun _ => 0⟩ (Or.inl (by decide))
  exact ⟨by rw [h.1], h.2⟩

/-- **C1**: in copy mode with duplicate-removal enabled, placing the same
source file at the same candidate destination a second time changes
nothing: the second run reports the placement as an identical duplicate
(`fileIsIdentical`, the `skipped-duplicate` outcome), performs no write
(`wrote = false`), leaves the filesystem exactly as after the first run
(so exactly one destination file exists), and the source file is
untouched. -/
theorem claim1_duplicate_skip_idempotent (fs : FS)
    (src destFile c : String) (r1 : PlaceResult)
    (hsrc : fsLookup fs src = some c)
    (h1 : placeFile fs false true src destFile = some r1) :
    placeFile r1.fs false true src destFile =
      some ⟨r1.fs, r1.finalDest, true, false⟩ ∧
    fsLookup r1.fs src = some c := by
  simp only [placeFile, hsrc] at h1
  split at h1
  next => exact absurd h1 (by simp)
  next di hres =>
    obtain ⟨d, ident⟩ := di
    rw [if_neg (by simp)] at h1
    cases ident with
    | true =>
      rw [if_pos rfl] at h1
      rw [Option.some.injEq] at h1
      subst h1
      refine ⟨?_, hsrc⟩
      simp [placeFile, hsrc, hres]
    | false =>
      rw [if_neg (by simp)] at h1
      rw [Option.some.injEq] at h1
      subst h1
      have hnone : fsLookup fs d = none := by
        obtain ⟨k, hk, hdk, hprev, hfin⟩ :=
          resolveLoop_spec fs true c (splitext destFile).1 (splitext destFile).2 _ 0 d false hres
        rcases hfin with ⟨hc, _⟩ | ⟨_, hn⟩
        · exact absurd hc (by simp)
        · exact hn
      have hlen : (fsInsert fs d c).length = fs.length + 1 :=
        fsInsert_length_of_lookup_none fs d c hnone
      have hres2 : resolveLoop (fsInsert fs d c) true c
          (splitext destFile).1 (splitext destFile).2
          ((fsInsert fs d c).length + 1) 0 = some (d, true) := by
        apply resolveLoop_insert fs c _ _ (fs.length + 1) 0 d hres
        omega
      have hsrc2 : fsLookup (fsInsert fs d c) src = some c := by
        by_cases hsd : src = d
        · subst hsd; exact fsLookup_insert_self _ _ _
        · rw [fsLookup_insert_ne _ _ _ _ hsd]; exact hsrc
      refine ⟨?_, hsrc2⟩
      simp [placeFile, hsrc2, hres2]

/-- **C1** witness: a first copy placement of `s/a.jpg` to `d/a.jpg`
writes the file; the second run of the same placement skips it as a
duplicate and leaves everything unchanged. -/
theorem claim1_duplicate_skip_idempotent_witness :
    placeFile [("d/a.jpg", "X"), ("s/a.jpg", "X")] false true "s/a.jpg" "d/a.jpg" =
      some ⟨[("d/a.jpg", "X"), ("s/a.jpg", "X")], "d/a.jpg", true, false⟩ ∧
    fsLookup [("d/a.jpg", "X"), ("s/a.jpg", "X")] "s/a.jpg" = some "X" :=
  claim1_duplicate_skip_idempotent [("s/a.jpg", "X")] "s/a.jpg" "d/a.jpg" "X"
    ⟨[("d/a.jpg", "X"), ("s/a.jpg", "X")], "d/a.jpg", false, true⟩
    (by decide) (by decide)

/-! ## Helper lemmas: the stat-aware filesystem -/

theorem fsLookup2_remove_ne (fs : FS2) (p q : String) (h : q ≠ p) :
    fsLookup2 (fsRemove2 fs p) q = fsLookup2 fs q := by
  induction fs with
  | nil => rfl
  | cons kv rest ih =>
    simp only [fsRemove2, fsLookup2]
    by_cases hk : kv.1 = p
    · rw [if_pos hk, if_neg (fun hq => h (hq.symm.trans hk)), ih]
    · rw [if_neg hk]
      simp only [fsLookup2]
      by_cases hq : kv.1 = q
      · rw [if_pos hq, if_pos hq]
      · rw [if_neg hq, if_neg hq, ih]

theorem fsLookup2_insert_self (fs : FS2) (p : String) (f : PyFile) :
    fsLookup2 (fsInsert2 fs p f) p = some f := by
  simp [fsInsert2, fsLookup2]

theorem fsLookup2_insert_ne (fs : FS2) (p : String) (f : PyFile)
    (q : String) (h : q ≠ p) :
    fsLookup2 (fsInsert2 fs p f) q = fsLookup2 fs q := by
  simp only [fsInsert2, fsLookup2]
  rw [if_neg (fun hq => h hq.symm)]
  exact fsLookup2_remove_ne fs p q h

theorem fsRemove2_of_lookup_none (fs : FS2) (p : String)
    (h : fsLookup2 fs p = none) : fsRemove2 fs p = fs := by
  induction fs with
  | nil => rfl
  | cons kv rest ih =>
    simp only [fsLookup2] at h
    by_cases hk : kv.1 = p
    · rw [if_pos hk] at h; exact absurd h (by simp)
    · rw [if_neg hk] at h
      simp only [fsRemove2]
      rw [if_neg hk, ih h]

theorem fsInsert2_length_of_lookup_none (fs : FS2) (p : String) (f : PyFile)
    (h : fsLookup2 fs p = none) :
    (fsInsert2 fs p f).length = fs.length + 1 := by
  simp [fsInsert2, fsRemove2_of_lookup_none fs p h]

/-- A pair the shallow compare reports equal always has equal sizes
(either branch that can return `true` requires it). -/
theorem fileCmp_length (a b : PyFile) (h : fileCmp a b = true) :
    a.content.length = b.content.length := by
  unfold fileCmp at h
  split at h
  next hc => exact hc.1
  next =>
    split at h
    next => exact absurd h (by simp)
    next hne => simpa using hne

theorem resolveLoop2_step_free (fs : FS2) (rd : Bool) (f : PyFile)
    (root ext : String) (fuel n : Nat)
    (hl : fsLookup2 fs (candidateName root ext n) = none) :
    resolveLoop2 fs rd f root ext (fuel + 1) n =
      some (candidateName root ext n, false) := by
  simp only [resolveLoop2, hl]

theorem resolveLoop2_step_occupied (fs : FS2) (rd : Bool) (f : PyFile)
    (root ext : String) (fuel n : Nat) (df : PyFile)
    (hl : fsLookup2 fs (candidateName root ext n) = some df)
    (hb : (rd && fileCmp f df) = false) :
    resolveLoop2 fs rd f root ext (fuel + 1) n =
      resolveLoop2 fs rd f root ext fuel (n + 1) := by
  simp only [resolveLoop2, hl, hb]
  simp

/-- Anatomy of a successful stat-aware collision-loop run: the mirror of
`resolveLoop_spec` with the shallow `fileCmp` in place of content
equality. -/
theorem resolveLoop2_spec (fs : FS2) (rd : Bool) (f : PyFile)
    (root ext : String) :
    ∀ fuel n d ident,
      resolveLoop2 fs rd f root ext fuel n = some (d, ident) →
      ∃ k, k < fuel ∧ d = candidateName root ext (n + k) ∧
        (∀ m, m < k → ∃ gm,
          fsLookup2 fs (candidateName root ext (n + m)) = some gm ∧
          (rd && fileCmp f gm) = false) ∧
        ((ident = true ∧ ∃ gd, fsLookup2 fs d = some gd ∧
            (rd && fileCmp f gd) = true) ∨
          (ident = false ∧ fsLookup2 fs d = none)) := by
  intro fuel
  induction fuel with
  | zero => intro n d ident h; exact absurd h (by simp [resolveLoop2])
  | succ fuel ih =>
    intro n d ident h
    simp only [resolveLoop2] at h
    split at h
    next hl =>
      simp only [Option.some.injEq, Prod.mk.injEq] at h
      refine ⟨0, by omega, by rw [← h.1]; simp, by omega, ?_⟩
      right
      exact ⟨h.2.symm, by rw [← h.1]; exact hl⟩
    next df hl =>
      split at h
      next hb =>
        simp only [Option.some.injEq, Prod.mk.injEq] at h
        refine ⟨0, by omega, by rw [← h.1]; simp, by omega, ?_⟩
        left
        exact ⟨h.2.symm, df, by rw [← h.1]; exact hl, hb⟩
      next hb =>
        have hb2 : (rd && fileCmp f df) = false := by simpa using hb
        obtain ⟨k, hk, hd, hprev, hfin⟩ := ih (n + 1) d ident h
        refine ⟨k + 1, by omega, by rw [hd]; congr 1; omega, ?_, hfin⟩
        intro m hm
        match m with
        | 0 => exact ⟨df, by simpa using hl, hb2⟩
        | m + 1 =>
          obtain ⟨gm, hgm, hgb⟩ := hprev m (by omega)
          exact ⟨gm, by rw [show n + (m + 1) = n + 1 + m by omega]; exact hgm, hgb⟩

/-- **C2** (amended): over the stat-aware filesystem, whenever a transfer
is actually executed (`shutil.move` / `shutil.copy2`) its target is
either a path holding no file, or — only in move mode with
duplicate-removal on — the path of an occupant that passed the shallow
`filecmp.cmp` test against the source: matching stat signature (size and
mtime), or matching size with identical bytes. In particular a
destination file of a different size is never overwritten and in copy
mode no occupied path is ever written; the occupant's bytes may differ
from the source's when only the signature matched. -/
theorem claim2_overwrite_only_shallow_duplicate_move (fs : FS2)
    (move rd : Bool) (src destFile : String) (f : PyFile) (r : PlaceResult2)
    (hsrc : fsLookup2 fs src = some f)
    (h : placeFile2 fs move rd src destFile = some r)
    (hw : r.wrote = true) :
    fsLookup2 fs r.finalDest = none ∨
      (move = true ∧ rd = true ∧ r.identical = true ∧
        ∃ g, fsLookup2 fs r.finalDest = some g ∧ fileCmp f g = true ∧
          g.content.length = f.content.length) := by
  simp only [placeFile2, hsrc] at h
  split at h
  next hres => exact absurd h (by simp)
  next di hres =>
    obtain ⟨d, ident⟩ := di
    obtain ⟨k, hk, hdk, hprev, hfin⟩ :=
      resolveLoop2_spec fs rd f (splitext destFile).1 (splitext destFile).2 _ 0 d ident hres
    cases move with
    | true =>
      rw [if_pos rfl] at h
      rw [Option.some.injEq] at h
      subst h
      rcases hfin with ⟨hid, gd, hgd, hb⟩ | ⟨hid, hnone⟩
      · right
        have hb2 : rd = true ∧ fileCmp f gd = true := by simpa using hb
        exact ⟨rfl, hb2.1, hid, gd, hgd, hb2.2, (fileCmp_length f gd hb2.2).symm⟩
      · left
        exact hnone
    | false =>
      rw [if_neg (by simp)] at h
      cases ident with
      | true =>
        rw [if_pos rfl] at h
        rw [Option.some.injEq] at h
        subst h
        exact absurd hw (by simp)
      | false =>
        rw [if_neg (by simp)] at h
        rw [Option.some.injEq] at h
        subst h
        rcases hfin with ⟨hid, _⟩ | ⟨_, hnone⟩
        · exact absurd hid (by simp)
        · left
          exact hnone

/-- **C2** witness: a copy placement onto an unoccupied destination name
falls under the first disjunct (the target held no file). -/
theorem claim2_overwrite_only_shallow_duplicate_move_witness :
    fsLookup2 [("s/a.jpg", ⟨"X", 1⟩)] "d/a.jpg" = none ∨
      (false = true ∧ true = true ∧
        (⟨[("d/a.jpg", ⟨"X", 1⟩), ("s/a.jpg", ⟨"X", 1⟩)], "d/a.jpg", false, true⟩ :
          PlaceResult2).identical = true ∧
        ∃ g, fsLookup2 [("s/a.jpg", ⟨"X", 1⟩)] "d/a.jpg" = some g ∧
          fileCmp ⟨"X", 1⟩ g = true ∧
          g.content.length = (⟨"X", 1⟩ : PyFile).content.length) :=
  claim2_overwrite_only_shallow_duplicate_move [("s/a.jpg", ⟨"X", 1⟩)] false true
    "s/a.jpg" "d/a.jpg" ⟨"X", 1⟩
    ⟨[("d/a.jpg", ⟨"X", 1⟩), ("s/a.jpg", ⟨"X", 1⟩)], "d/a.jpg", false, true⟩
    (by decide) (by decide) (by decide)

/-- **C2** counterexample: the claim as stated — no existing destination
file is ever the target of a transfer; every transfer targets a free
path or is skipped — is false: in move mode with duplicate-removal on, a
byte-identical file at the resolved destination (here with a different
mtime, so the bytes really are read and compared) is detected and
`shutil.move` still executes onto that occupied path. -/
theorem claim2_counterexample :
    placeFile2 [("s/a.jpg", ⟨"X", 1⟩), ("d/a.jpg", ⟨"X", 2⟩)] true true
        "s/a.jpg" "d/a.jpg" =
      some ⟨[("d/a.jpg", ⟨"X", 1⟩)], "d/a.jpg", true, true⟩ ∧
    fsLookup2 [("s/a.jpg", ⟨"X", 1⟩), ("d/a.jpg", ⟨"X", 2⟩)] "d/a.jpg" =
      some ⟨"X", 2⟩ ∧
    ¬ (fsLookup2 [("s/a.jpg", ⟨"X", 1⟩), ("d/a.jpg", ⟨"X", 2⟩)] "d/a.jpg" = none ∨
        (⟨[("d/a.jpg", ⟨"X", 1⟩)], "d/a.jpg", true, true⟩ : PlaceResult2).wrote = false) := by
  refine ⟨by decide, by decide, ?_⟩
  intro hc
  rcases hc with hc | hc
  · exact absurd hc (by decide)
  · exact absurd hc (by decide)

/-- **C3** (amended): when the candidate destination name is occupied by
a file that fails the shallow `filecmp.cmp` test against the source —
different size, or same size but different bytes with a differing stat
signature — or when duplicate-keep policy is active, the collision loop
retries with the numeric suffix `_1` before the extension; two distinct
source files resolving to the same destination name then yield two
destination files, the second at `root_1.ext`, under any duplicate
policy. A different-content occupant whose size and mtime match the
source is instead skipped as a duplicate when duplicate-removal is on
(see the counterexample). -/
theorem claim3_suffix_two_files_shallow (fs : FS2) (rd : Bool)
    (srcA srcB destFile : String) (fA fB : PyFile) (root ext : String)
    (hsplit : splitext destFile = (root, ext))
    (hA : fsLookup2 fs srcA = some fA)
    (hB : fsLookup2 fs srcB = some fB)
    (hAB : fileCmp fB fA = false)
    (h0 : fsLookup2 fs destFile = none)
    (h1 : fsLookup2 fs (root ++ "_1" ++ ext) = none)
    (hsB : srcB ≠ destFile) :
    placeFile2 fs false rd srcA destFile =
      some ⟨fsInsert2 fs destFile fA, destFile, false, true⟩ ∧
    placeFile2 (fsInsert2 fs destFile fA) false rd srcB destFile =
      some ⟨fsInsert2 (fsInsert2 fs destFile fA) (root ++ "_1" ++ ext) fB,
        root ++ "_1" ++ ext, false, true⟩ ∧
    fsLookup2 (fsInsert2 (fsInsert2 fs destFile fA) (root ++ "_1" ++ ext) fB)
      destFile = some fA ∧
    fsLookup2 (fsInsert2 (fsInsert2 fs destFile fA) (root ++ "_1" ++ ext) fB)
      (root ++ "_1" ++ ext) = some fB := by
  have hjoin : root ++ ext = destFile := by
    have hj := splitext_join destFile
    rw [hsplit] at hj
    exact hj
  have hcand0 : candidateName root ext 0 = destFile := hjoin
  have hcand1 : candidateName root ext 1 = root ++ "_1" ++ ext := by
    show root ++ "_" ++ pyStrNat 1 ++ ext = root ++ "_1" ++ ext
    rw [show pyStrNat 1 = "1" from by decide, String.append_assoc root "_" "1",
      show ("_" : String) ++ "1" = "_1" from rfl]
  have hne10 : candidateName root ext 1 ≠ destFile := by
    rw [← hcand0]
    intro hc
    have := candidateName_inj root ext 1 0 hc
    omega
  have hres1 : resolveLoop2 fs rd fA root ext (fs.length + 1) 0 =
      some (destFile, false) := by
    rw [resolveLoop2_step_free fs rd fA root ext fs.length 0
        (by rw [hcand0]; exact h0), hcand0]
  have hfirst : placeFile2 fs false rd srcA destFile =
      some ⟨fsInsert2 fs destFile fA, destFile, false, true⟩ := by
    simp [placeFile2, hA, hsplit, hres1]
  have hlen2 : (fsInsert2 fs destFile fA).length = fs.length + 1 :=
    fsInsert2_length_of_lookup_none fs destFile fA h0
  have hB2 : fsLookup2 (fsInsert2 fs destFile fA) srcB = some fB := by
    rw [fsLookup2_insert_ne _ _ _ _ hsB]
    exact hB
  have hl0 : fsLookup2 (fsInsert2 fs destFile fA) (candidateName root ext 0) =
      some fA := by
    rw [hcand0]
    exact fsLookup2_insert_self _ _ _
  have hb0 : (rd && fileCmp fB fA) = false := by
    simp [hAB]
  have hl1 : fsLookup2 (fsInsert2 fs destFile fA) (candidateName root ext 1) =
      none := by
    rw [fsLookup2_insert_ne _ _ _ _ hne10, hcand1]
    exact h1
  have hres2 : resolveLoop2 (fsInsert2 fs destFile fA) rd fB root ext
      ((fsInsert2 fs destFile fA).length + 1) 0 =
      some (root ++ "_1" ++ ext, false) := by
    rw [hlen2,
      resolveLoop2_step_occupied (fsInsert2 fs destFile fA) rd fB root ext
        (fs.length + 1) 0 fA hl0 hb0,
      resolveLoop2_step_free (fsInsert2 fs destFile fA) rd fB root ext
        fs.length 1 hl1, hcand1]
  have hsecond : placeFile2 (fsInsert2 fs destFile fA) false rd srcB destFile =
      some ⟨fsInsert2 (fsInsert2 fs destFile fA) (root ++ "_1" ++ ext) fB,
        root ++ "_1" ++ ext, false, true⟩ := by
    simp [placeFile2, hB2, hsplit, hres2]
  refine ⟨hfirst, hsecond, ?_, ?_⟩
  · rw [fsLookup2_insert_ne _ _ _ _ (fun hc => hne10 (hcand1.trans hc.symm))]
    exact fsLookup2_insert_self _ _ _
  · exact fsLookup2_insert_self _ _ _

/-- **C3** witness: `s/a.jpg` (bytes `A`) and `s2/a.jpg` (bytes `BB`,
different size, so the shallow compare fails) both resolve to
`d/a.jpg`; the first lands there, the second is suffixed to `d/a_1.jpg`,
and both files are present afterwards. -/
theorem claim3_suffix_two_files_shallow_witness :
    placeFile2 [("s/a.jpg", ⟨"A", 1⟩), ("s2/a.jpg", ⟨"BB", 2⟩)] false true
        "s/a.jpg" "d/a.jpg" =
      some ⟨fsInsert2 [("s/a.jpg", ⟨"A", 1⟩), ("s2/a.jpg", ⟨"BB", 2⟩)]
          "d/a.jpg" ⟨"A", 1⟩, "d/a.jpg", false, true⟩ ∧
    placeFile2 (fsInsert2 [("s/a.jpg", ⟨"A", 1⟩), ("s2/a.jpg", ⟨"BB", 2⟩)]
        "d/a.jpg" ⟨"A", 1⟩) false true "s2/a.jpg" "d/a.jpg" =
      some ⟨fsInsert2 (fsInsert2 [("s/a.jpg", ⟨"A", 1⟩), ("s2/a.jpg", ⟨"BB", 2⟩)]
          "d/a.jpg" ⟨"A", 1⟩) ("d/a" ++ "_1" ++ ".jpg") ⟨"BB", 2⟩,
        "d/a" ++ "_1" ++ ".jpg", false, true⟩ ∧
    fsLookup2 (fsInsert2 (fsInsert2 [("s/a.jpg", ⟨"A", 1⟩), ("s2/a.jpg", ⟨"BB", 2⟩)]
        "d/a.jpg" ⟨"A", 1⟩) ("d/a" ++ "_1" ++ ".jpg") ⟨"BB", 2⟩) "d/a.jpg" =
      some ⟨"A", 1⟩ ∧
    fsLookup2 (fsInsert2 (fsInsert2 [("s/a.jpg", ⟨"A", 1⟩), ("s2/a.jpg", ⟨"BB", 2⟩)]
        "d/a.jpg" ⟨"A", 1⟩) ("d/a" ++ "_1" ++ ".jpg") ⟨"BB", 2⟩)
      ("d/a" ++ "_1" ++ ".jpg") = some ⟨"BB", 2⟩ :=
  claim3_suffix_two_files_shallow [("s/a.jpg", ⟨"A", 1⟩), ("s2/a.jpg", ⟨"BB", 2⟩)]
    true "s/a.jpg" "s2/a.jpg" "d/a.jpg" ⟨"A", 1⟩ ⟨"BB", 2⟩ "d/a" ".jpg"
    (by decide) (by decide) (by decide) (by decide) (by decide) (by decide) (by decide)

/-- **C3** counterexample: the claim says a different-content occupant
always forces the `_1` suffix, so two distinct sources resolving to the
same name yield two destination files. With duplicate-removal on this is
false, because line 231 calls `filecmp.cmp` with its default
`shallow=True`: after `s/a.jpg` (bytes `AA`, mtime 5) is copied to
`d/a.jpg` (`copy2` preserves the mtime), placing `s2/a.jpg` with
*different* bytes `BB` but the same size and mtime finds matching stat
signatures, classifies the pair as duplicates without reading any bytes,
and skips the second file: one destination file remains and nothing is
created at `d/a_1.jpg`. -/
theorem claim3_counterexample :
    placeFile2 [("s/a.jpg", ⟨"AA", 5⟩), ("s2/a.jpg", ⟨"BB", 5⟩)] false true
        "s/a.jpg" "d/a.jpg" =
      some ⟨[("d/a.jpg", ⟨"AA", 5⟩), ("s/a.jpg", ⟨"AA", 5⟩), ("s2/a.jpg", ⟨"BB", 5⟩)],
        "d/a.jpg", false, true⟩ ∧
    placeFile2 [("d/a.jpg", ⟨"AA", 5⟩), ("s/a.jpg", ⟨"AA", 5⟩), ("s2/a.jpg", ⟨"BB", 5⟩)]
        false true "s2/a.jpg" "d/a.jpg" =
      some ⟨[("d/a.jpg", ⟨"AA", 5⟩), ("s/a.jpg", ⟨"AA", 5⟩), ("s2/a.jpg", ⟨"BB", 5⟩)],
        "d/a.jpg", true, false⟩ ∧
    (⟨"AA", 5⟩ : PyFile).content ≠ (⟨"BB", 5⟩ : PyFile).content ∧
    fsLookup2 [("d/a.jpg", ⟨"AA", 5⟩), ("s/a.jpg", ⟨"AA", 5⟩), ("s2/a.jpg", ⟨"BB", 5⟩)]
      ("d/a" ++ "_1" ++ ".jpg") = none := by
  refine ⟨by decide, by decide, by decide, by decide⟩

/-- **C10**: in a move run with duplicate-removal enabled, detecting a
byte-identical file at the resolved destination does not suppress the
transfer: `shutil.move` still executes (`wrote = true`), the source file
is removed, and the destination file is replaced by the identical-content
source. -/
theorem claim10_move_executes_on_duplicate (fs : FS)
    (src destFile c : String) (r : PlaceResult)
    (hsrc : fsLookup fs src = some c)
    (h : placeFile fs true true src destFile = some r)
    (hid : r.identical = true)
    (hne : src ≠ r.finalDest) :
    r.wrote = true ∧
    fsLookup fs r.finalDest = some c ∧
    fsLookup r.fs src = none ∧
    fsLookup r.fs r.finalDest = some c := by
  simp only [placeFile, hsrc] at h
  split at h
  next => exact absurd h (by simp)
  next di hres =>
    obtain ⟨d, ident⟩ := di
    rw [if_pos trivial] at h
    rw [Option.some.injEq] at h
    subst h
    obtain ⟨k, hk, hdk, hprev, hfin⟩ :=
      resolveLoop_spec fs true c (splitext destFile).1 (splitext destFile).2 _ 0 d ident hres
    rcases hfin with ⟨_, cd, hcd, hb⟩ | ⟨hfid, _⟩
    · have hcdc : cd = c := by simpa using hb
      subst hcdc
      have hns : src ≠ d := hne
      refine ⟨rfl, hcd, ?_, ?_⟩
      · show fsLookup (fsInsert (fsRemove fs src) d cd) src = none
        rw [fsLookup_insert_ne _ _ _ _ hns, fsLookup_remove_self]
      · exact fsLookup_insert_self _ _ _
    · have hid2 : ident = true := hid
      rw [hfid] at hid2
      exact absurd hid2 (by simp)

/-- **C10** witness: moving `s/a.jpg` (content `X`) onto `d/a.jpg`, which
already holds `X`, still executes the move: the source is gone and the
destination holds the content. -/
theorem claim10_move_executes_on_duplicate_witness :
    (⟨[("d/a.jpg", "X")], "d/a.jpg", true, true⟩ : PlaceResult).wrote = true ∧
    fsLookup [("s/a.jpg", "X"), ("d/a.jpg", "X")] "d/a.jpg" = some "X" ∧
    fsLookup [("d/a.jpg", "X")] "s/a.jpg" = none ∧
    fsLookup [("d/a.jpg", "X")] "d/a.jpg" = some "X" :=
  claim10_move_executes_on_duplicate [("s/a.jpg", "X"), ("d/a.jpg", "X")]
    "s/a.jpg" "d/a.jpg" "X" ⟨[("d/a.jpg", "X")], "d/a.jpg", true, true⟩
    (by decide) (by decide) (by decide) (by decide)

/-- A date-selection step skips a field whose value fails `valid_date`
(or which is absent). -/
theorem tryTag_invalid (v : Option String) (next : Option DT)
    (h : ∀ s, v = some s → valid_date s = false) : tryTag v next = next := by
  cases v with
  | none => rfl
  | some s => simp [tryTag, h s rfl]

/-- **C6** (amended): for a renamed file the destination filename is the
date formatted as `YYYY-MM-DD_HHMMSS`, an underscore, the tag sanitized to
the characters `[A-Za-z0-9._-]` (defaulting to the sanitized original
basename when no `Image Model` tag was found), and the original extension
kept *as is* (the code does not lower-case it, and a degraded date does
not suppress renaming); with renaming disabled the original basename is
kept verbatim. -/
theorem claim6_filename_shape (date : DT) (model : Option String)
    (base extC : List Char) (hbne : base ≠ [])
    (hbd : ∀ c ∈ base, c ≠ '.') (hbs : ∀ c ∈ base, c ≠ '/')
    (hed : ∀ c ∈ extC, c ≠ '.') (hes : ∀ c ∈ extC, c ≠ '/') :
    composeFilename true date model ⟨base ++ '.' :: extC⟩ =
      strftimeRename date ++ "_" ++ purge_string (model.getD ⟨base⟩) ++ ⟨'.' :: extC⟩ ∧
    (∀ bn : String, composeFilename false date model bn = bn) ∧
    (∀ s : String, (purge_string s).data.all
      (fun c => ".0123456789-ABCDEFGHIJKLMNOPQRSTUVWXYZ_abcdefghijklmnopqrstuvwxyz".data.contains c) = true) := by
  refine ⟨?_, fun bn => rfl, purge_string_allowed⟩
  unfold composeFilename
  rw [if_pos rfl]
  dsimp only
  rw [splitext_simple base extC hbne hbd hbs hed hes]

/-- **C6** witness: composing the filename for `photo.jpg` with no device
tag at 2023-06-15 14:15:00 follows the amended shape. -/
theorem claim6_filename_shape_witness :
    composeFilename true (toLinear 2023 6 15 14 15 0) none
        ⟨"photo".data ++ '.' :: "jpg".data⟩ =
      strftimeRename (toLinear 2023 6 15 14 15 0) ++ "_" ++
        purge_string ((none : Option String).getD ⟨"photo".data⟩) ++
        ⟨'.' :: "jpg".data⟩ :=
  (claim6_filename_shape (toLinear 2023 6 15 14 15 0) none "photo".data "jpg".data
    (by decide) (by decide) (by decide) (by decide) (by decide)).1

/-- **C6** counterexample: the claim says the original extension is
lower-cased and that a degraded (filesystem-timestamp) date keeps the
original basename verbatim. Neither holds: `PHOTO.JPG` keeps `.JPG`
(upper case), and a file whose extraction completely failed (empty tag
set, timestamp fallback) is still renamed away from its original
basename. -/
theorem claim6_counterexample :
    composeFilename true (toLinear 2023 6 15 14 15 0) none "PHOTO.JPG" =
      "2023-06-15_141500_PHOTO.JPG" ∧
    composeFilename true (toLinear 2023 6 15 14 15 0) none "PHOTO.JPG" ≠
      "2023-06-15_141500_PHOTO" ++ strLower ".JPG" ∧
    fileDate [] (toLinear 2024 1 2 3 4 5) = some (toLinear 2024 1 2 3 4 5) ∧
    composeFilename true (toLinear 2024 1 2 3 4 5) none "a.jpg" ≠ "a.jpg" := by
  refine ⟨by decide, by decide, by decide, by decide⟩

/-- **C7** (amended): per-field failures are confined only as far as the
guards reach — a date field that is absent or fails `valid_date` is
skipped and the run falls back to the filesystem timestamp without
aborting (and the device-model read is wrapped in `try/except`); but a
date value that *passes* `valid_date` and then fails integer parsing
aborts the whole run (see the counterexample). -/
theorem claim7_invalid_fields_fall_back (tags : List (String × String)) (fsd : DT)
    (h1 : ∀ v, lookupTag tags "EXIF DateTimeOriginal" = some v → valid_date v = false)
    (h2 : ∀ v, lookupTag tags "EXIF DateTimeDigitized" = some v → valid_date v = false)
    (h3 : ∀ v, lookupTag tags "Image DateTime" = some v → valid_date v = false) :
    fileDate tags fsd = some fsd := by
  unfold fileDate
  rw [tryTag_invalid _ _ (fun s hs => h3 s hs),
    tryTag_invalid _ _ (fun s hs => h2 s hs),
    tryTag_invalid _ _ (fun s hs => h1 s hs)]

/-- **C7** witness: a zero-year date fails validation, so the extractor
falls back to the filesystem timestamp without raising. -/
theorem claim7_invalid_fields_fall_back_witness :
    fileDate [("EXIF DateTimeOriginal", "0000:01:02")] 12345 = some 12345 :=
  claim7_invalid_fields_fall_back [("EXIF DateTimeOriginal", "0000:01:02")] 12345
    (fun v hv => by
      have hv2 : v = "0000:01:02" := Option.some.inj (by rw [← hv]; rfl)
      subst hv2
      decide)
    (fun v hv => by simp [lookupTag] at hv)
    (fun v hv => by simp [lookupTag] at hv)

/-- **C7** counterexample: the claim says one bad file never aborts the
run, but a date value such as `12A:01:02 03:04:05` passes `valid_date`
(its component count is right and `'12A' > '0000'` lexicographically)
while `int('12A')` then raises an uncaught `ValueError`: the whole
`sortphotos` run ends in an unhandled exception because of that one
file. -/
theorem claim7_counterexample :
    valid_date "12A:01:02 03:04:05" = true ∧
    (sortphotos ⟨"src", "dest", ["jpg"], defaultSortFormat, false, true, false, 0, true⟩
      ⟨["src", "dest"], [("src/a.jpg", "X")],
        fun _ => [("EXIF DateTimeOriginal", "12A:01:02 03:04:05")], fun _ => 0⟩).2 =
      Except.error "unhandled exception" := by
  constructor
  · decide
  · rfl

/-- **C8** (modelled from the spec, pattern matching not being in
`src/sortphotos.py`): date extraction tries the filename pattern before
any embedded metadata — for `IMG_20230615_141500.jpg` the result is
2023-06-15 14:15:00 with tag `img` for *every* tag mapping — and with the
default `%Y/%m` template the directory is `2023/06` and the composed
filename is `2023-06-15_141500_img.jpg`. -/
theorem claim8_pattern_scenario (tags : List (String × String)) (fsd : DT) :
    specExtract "IMG_20230615_141500.jpg" tags fsd =
      some (toLinear 2023 6 15 14 15 0, some "img") ∧
    defaultSortFormat (toLinear 2023 6 15 14 15 0) = "2023/06" ∧
    composeFilename true (toLinear 2023 6 15 14 15 0) (some "img")
      "IMG_20230615_141500.jpg" = "2023-06-15_141500_img.jpg" := by
  refine ⟨?_, by decide, by decide⟩
  rfl
